import Mathlib

set_option maxRecDepth 100000

/-!
Verification development for the juejin-download incremental image
synchronization pipeline.

The definitions below are a shallow embedding of the JavaScript sources
(process-images.js, fix-missing-images.js, utils.js, lib/config.js).
Pure computations (hashing, file naming, reference extraction) are
translated directly; the stateful pipeline is modelled by explicit state
passing over a per-collection file-system record.  Downloads depend on
the network, which is modelled by an oracle (a function from URL to
success) plus an explicit log of issued network requests.  Machine
integers in the hash algorithms are Nat with explicit reduction
modulo 2 to the 32.
-/

/-! ### 32-bit helpers for the hash primitives -/

def m32 : Nat := 4294967296

def rotl32 (x n : Nat) : Nat :=
  (((x <<< n) % m32) ||| (x >>> (32 - n))) % m32

def rotr32 (x n : Nat) : Nat :=
  ((x >>> n) ||| ((x <<< (32 - n)) % m32)) % m32

def hexDigit (n : Nat) : Char :=
  if n < 10 then Char.ofNat (48 + n) else Char.ofNat (87 + n)

/-- Lowercase hexadecimal rendering of one byte. -/
def byteHex (b : Nat) : List Char :=
  [hexDigit (b / 16 % 16), hexDigit (b % 16)]

def bytesToHex (bs : List Nat) : String :=
  String.mk (bs.foldr (fun b acc => byteHex b ++ acc) [])

/-- UTF-8 encoding of one character, as the byte list Node produces for
Buffer.from(string, "utf-8"). -/
def utf8Bytes (c : Char) : List Nat :=
  let n := c.toNat
  if n < 128 then [n]
  else if n < 2048 then [192 + n / 64, 128 + n % 64]
  else if n < 65536 then [224 + n / 4096, 128 + (n / 64) % 64, 128 + n % 64]
  else [240 + n / 262144, 128 + (n / 4096) % 64, 128 + (n / 64) % 64, 128 + n % 64]

def strBytes (s : String) : List Nat :=
  s.toList.foldr (fun c acc => utf8Bytes c ++ acc) []

/-- Split a byte list into 64-byte blocks (the input length is always a
multiple of 64 after padding).  Structural recursion on a fuel bound —
one unit of fuel per input byte is always enough, since every step
consumes 64 bytes — keeps the definition kernel-reducible. -/
def chunks64Fuel : Nat → List Nat → List (List Nat)
  | 0, _ => []
  | _ + 1, [] => []
  | fuel + 1, b :: rest => ((b :: rest).take 64) :: chunks64Fuel fuel ((b :: rest).drop 64)

def chunks64 (bs : List Nat) : List (List Nat) :=
  chunks64Fuel bs.length bs

/-- Merkle-Damgard padding shared by MD5 and SHA-256: append byte 0x80,
then zeros to 56 mod 64, then the bit length as eight bytes
(little-endian when le is true, else big-endian). -/
def padMessage (bs : List Nat) (le : Bool) : List Nat :=
  let len := bs.length
  let bitLen := (len * 8) % (2 ^ 64)
  let zeros := (119 - (len % 64)) % 64
  let lenBytesLE := (List.range 8).map fun i => bitLen / (2 ^ (8 * i)) % 256
  bs ++ [128] ++ List.replicate zeros 0 ++ (if le then lenBytesLE else lenBytesLE.reverse)

/-! ### MD5 (RFC 1321), used by utils.js generateImageFileName -/

def md5K : List Nat :=
  [3614090360,3905402710,606105819,3250441966,4118548399,1200080426,2821735955,4249261313,
   1770035416,2336552879,4294925233,2304563134,1804603682,4254626195,2792965006,1236535329,
   4129170786,3225465664,643717713,3921069994,3593408605,38016083,3634488961,3889429448,
   568446438,3275163606,4107603335,1163531501,2850285829,4243563512,1735328473,2368359562,
   4294588738,2272392833,1839030562,4259657740,2763975236,1272893353,4139469664,3200236656,
   681279174,3936430074,3572445317,76029189,3654602809,3873151461,530742520,3299628645,
   4096336452,1126891415,2878612391,4237533241,1700485571,2399980690,4293915773,2240044497,
   1873313359,4264355552,2734768916,1309151649,4149444226,3174756917,718787259,3951481745]

def md5S : List Nat :=
  [7,12,17,22,7,12,17,22,7,12,17,22,7,12,17,22,
   5,9,14,20,5,9,14,20,5,9,14,20,5,9,14,20,
   4,11,16,23,4,11,16,23,4,11,16,23,4,11,16,23,
   6,10,15,21,6,10,15,21,6,10,15,21,6,10,15,21]

/-- Assemble the sixteen little-endian 32-bit words of one MD5 block. -/
def md5Words (block : List Nat) : List Nat :=
  (List.range 16).map fun i =>
    block.getD (4 * i) 0 + block.getD (4 * i + 1) 0 * 256 +
      block.getD (4 * i + 2) 0 * 65536 + block.getD (4 * i + 3) 0 * 16777216

def md5Round (m : List Nat) (st : List Nat) (i : Nat) : List Nat :=
  match st with
  | [a, b, c, d] =>
    let f :=
      if i < 16 then ((b &&& c) ||| ((m32 - 1 - b) &&& d)) % m32
      else if i < 32 then ((d &&& b) ||| ((m32 - 1 - d) &&& c)) % m32
      else if i < 48 then (b ^^^ c ^^^ d) % m32
      else (c ^^^ (b ||| (m32 - 1 - d))) % m32
    let g :=
      if i < 16 then i
      else if i < 32 then (5 * i + 1) % 16
      else if i < 48 then (3 * i + 5) % 16
      else (7 * i) % 16
    let tmp := (a + f + md5K.getD i 0 + m.getD g 0) % m32
    let b' := (b + rotl32 tmp (md5S.getD i 0)) % m32
    [d, b', b, c]
  | other => other

def md5Compress (h0 : List Nat) (block : List Nat) : List Nat :=
  let m := md5Words block
  let st := (List.range 64).foldl (md5Round m) h0
  List.zipWith (fun x y => (x + y) % m32) h0 st

/-- Render the MD5 state words little-endian to bytes. -/
def wordsLEBytes (ws : List Nat) : List Nat :=
  ws.foldr (fun w acc => [w % 256, w / 256 % 256, w / 65536 % 256, w / 16777216 % 256] ++ acc) []

def md5Init : List Nat := [1732584193, 4023233417, 2562383102, 271733878]

def md5HexOfBytes (bs : List Nat) : String :=
  bytesToHex (wordsLEBytes ((chunks64 (padMessage bs true)).foldl md5Compress md5Init))

/-- MD5 hex digest of a string, as crypto.createHash("md5") produces. -/
def md5Hex (s : String) : String :=
  md5HexOfBytes (strBytes s)

/-! ### SHA-256 (FIPS 180-4), used by utils.js calculateFileHash -/

def sha256H0 : List Nat :=
  [1779033703,3144134277,1013904242,2773480762,1359893119,2600822924,528734635,1541459225]

def sha256K : List Nat :=
  [1116352408,1899447441,3049323471,3921009573,961987163,1508970993,2453635748,2870763221,
   3624381080,310598401,607225278,1426881987,1925078388,2162078206,2614888103,3248222580,
   3835390401,4022224774,264347078,604807628,770255983,1249150122,1555081692,1996064986,
   2554220882,2821834349,2952996808,3210313671,3336571891,3584528711,113926993,338241895,
   666307205,773529912,1294757372,1396182291,1695183700,1986661051,2177026350,2456956037,
   2730485921,2820302411,3259730800,3345764771,3516065817,3600352804,4094571909,275423344,
   430227734,506948616,659060556,883997877,958139571,1322822218,1537002063,1747873779,
   1955562222,2024104815,2227730452,2361852424,2428436474,2756734187,3204031479,3329325298]

/-- Assemble the sixteen big-endian 32-bit words of one SHA-256 block. -/
def sha256Words (block : List Nat) : List Nat :=
  (List.range 16).map fun i =>
    block.getD (4 * i) 0 * 16777216 + block.getD (4 * i + 1) 0 * 65536 +
      block.getD (4 * i + 2) 0 * 256 + block.getD (4 * i + 3) 0

def sha256SmallSigma0 (x : Nat) : Nat := (rotr32 x 7 ^^^ rotr32 x 18 ^^^ (x >>> 3)) % m32
def sha256SmallSigma1 (x : Nat) : Nat := (rotr32 x 17 ^^^ rotr32 x 19 ^^^ (x >>> 10)) % m32
def sha256BigSigma0 (x : Nat) : Nat := (rotr32 x 2 ^^^ rotr32 x 13 ^^^ rotr32 x 22) % m32
def sha256BigSigma1 (x : Nat) : Nat := (rotr32 x 6 ^^^ rotr32 x 11 ^^^ rotr32 x 25) % m32

/-- Extend the 16-word schedule by n further words. -/
def sha256Extend : Nat → List Nat → List Nat
  | 0, w => w
  | n + 1, w =>
    let len := w.length
    let nw := (sha256SmallSigma1 (w.getD (len - 2) 0) + w.getD (len - 7) 0 +
               sha256SmallSigma0 (w.getD (len - 15) 0) + w.getD (len - 16) 0) % m32
    sha256Extend n (w ++ [nw])

def sha256Round (st : List Nat) (wk : Nat × Nat) : List Nat :=
  match st with
  | [a, b, c, d, e, f, g, h] =>
    let ch := ((e &&& f) ^^^ ((m32 - 1 - e) &&& g)) % m32
    let maj := ((a &&& b) ^^^ (a &&& c) ^^^ (b &&& c)) % m32
    let t1 := (h + sha256BigSigma1 e + ch + wk.2 + wk.1) % m32
    let t2 := (sha256BigSigma0 a + maj) % m32
    [(t1 + t2) % m32, a, b, c, (d + t1) % m32, e, f, g]
  | other => other

def sha256Compress (h0 : List Nat) (block : List Nat) : List Nat :=
  let w := sha256Extend 48 (sha256Words block)
  let st := (List.zip w sha256K).foldl sha256Round h0
  List.zipWith (fun x y => (x + y) % m32) h0 st

/-- Render the SHA-256 state words big-endian to bytes. -/
def wordsBEBytes (ws : List Nat) : List Nat :=
  ws.foldr (fun w acc => [w / 16777216 % 256, w / 65536 % 256, w / 256 % 256, w % 256] ++ acc) []

def sha256Hex (s : String) : String :=
  bytesToHex (wordsBEBytes ((chunks64 (padMessage (strBytes s) false)).foldl sha256Compress sha256H0))

/-- utils.js calculateFileHash: SHA-256 hex digest of the utf-8 content. -/
def calculateFileHash (content : String) : String :=
  sha256Hex content

/-! ### Character and string helpers mirroring the JavaScript runtime -/

/-- The whitespace class of JavaScript regexes and String.prototype.trim,
restricted to the ASCII range (all inputs in this development are ASCII
outside of fixed Chinese message constants, which contain no whitespace). -/
def jsIsSpace (c : Char) : Bool :=
  c = ' ' || c = '\t' || c = '\n' || c = '\r' || c = '\x0b' || c = '\x0c'

def toLowerAscii (c : Char) : Char :=
  if 'A' ≤ c && c ≤ 'Z' then Char.ofNat (c.toNat + 32) else c

/-- String.prototype.trim on the modelled whitespace class. -/
def jsTrim (s : String) : String :=
  String.mk (((s.toList.dropWhile jsIsSpace).reverse.dropWhile jsIsSpace).reverse)

/-- Expect an exact literal; return the remainder on success. -/
def lit : List Char → List Char → Option (List Char)
  | [], s => some s
  | _ :: _, [] => none
  | p :: ps, c :: s => if c = p then lit ps s else none

/-- Expect a literal case-insensitively (for regexes with the i flag). -/
def litCI : List Char → List Char → Option (List Char)
  | [], s => some s
  | _ :: _, [] => none
  | p :: ps, c :: s => if toLowerAscii c = toLowerAscii p then litCI ps s else none

/-- All ways a greedy character-class star can split the input, longest
match first: the backtracking order of a JavaScript regex engine. -/
def classSplits (p : Char → Bool) : List Char → List (List Char × List Char)
  | [] => [([], [])]
  | c :: rest =>
    if p c then
      ((classSplits p rest).map fun x => (c :: x.1, x.2)) ++ [([], c :: rest)]
    else [([], c :: rest)]

/-- Greedy character-class plus: like classSplits but at least one char. -/
def plusSplits (p : Char → Bool) (s : List Char) : List (List Char × List Char) :=
  (classSplits p s).filter fun x => !x.1.isEmpty

/-! ### utils.js string utilities -/

/-- A minimal WHATWG URL pathname extractor.  It covers exactly the URL
shapes the pipeline feeds it, which extractImageUrls guarantees to be
absolute http or https URLs with a nonempty host: scheme, then the
authority up to the first slash, question mark or hash, then the path up
to the first question mark or hash (defaulting to a single slash).
Returns none when new URL(url) would throw on such inputs (no scheme or
an empty host). -/
def urlPathname (url : String) : Option String :=
  let chars := url.toList
  let afterScheme :=
    match litCI "http://".toList chars with
    | some r =>
      match litCI "https://".toList chars with
      | some r2 => some r2
      | none => some r
    | none =>
      match litCI "https://".toList chars with
      | some r2 => some r2
      | none => none
  match afterScheme with
  | none => none
  | some rest =>
    let host := rest.takeWhile fun c => c ≠ '/' && c ≠ '?' && c ≠ '#'
    if host.isEmpty then none
    else
      let tail := rest.dropWhile fun c => c ≠ '/' && c ≠ '?' && c ≠ '#'
      match tail with
      | '/' :: _ => some (String.mk (tail.takeWhile fun c => c ≠ '?' && c ≠ '#'))
      | _ => some "/"

/-- Node path.basename on a posix path: the final path segment, ignoring
trailing slashes. -/
def pathBasename (p : String) : String :=
  let t := p.toList.reverse.dropWhile (· = '/')
  String.mk (t.takeWhile (· ≠ '/')).reverse

/-- The filename cleanup in generateImageFileName: the regex
[<>:"/\|?*] replaced by underscores. -/
def sanitizeName (s : String) : String :=
  String.mk (s.toList.map fun c =>
    if c = '<' || c = '>' || c = ':' || c = '"' || c = '/' || c = '\\' || c = '|' || c = '?' || c = '*'
    then '_' else c)

def recognizedExts : List String := ["jpg", "jpeg", "png", "gif", "webp", "svg", "bmp"]

/-- Try one alternative of the extension-sniffing regex at a position:
a dot, then the extension literal (case-insensitively), then a question
mark, hash or end of input.  Returns the matched extension capture with
its original casing. -/
def sniffAltAt (s : List Char) (ext : String) : Option String :=
  match lit ['.'] s with
  | none => none
  | some r =>
    match litCI ext.toList r with
    | none => none
    | some r2 =>
      match r2 with
      | [] => some (String.mk (r.take ext.length))
      | c :: _ => if c = '?' || c = '#' then some (String.mk (r.take ext.length)) else none

/-- First match of the regex looking for .(jpg|jpeg|png|gif|webp|svg|bmp)
followed by a question mark, hash or end, scanning left to right and
trying the alternatives in the written order at each position. -/
def sniffExtAux : List Char → Option String
  | [] => none
  | c :: rest =>
    match (recognizedExts.findSome? fun e => sniffAltAt (c :: rest) e) with
    | some ext => some ext
    | none => sniffExtAux rest

/-- The extension used for hash-based names: sniffed from the URL string,
defaulting to jpg. -/
def sniffExt (url : String) : String :=
  (sniffExtAux url.toList).getD "jpg"

/-- First eight hex digits of the MD5 of the URL, as
crypto.createHash("md5")...digest("hex").substring(0, 8). -/
def md5Hex8 (url : String) : String :=
  String.mk ((md5Hex url).toList.take 8)

/-- The try block of utils.js generateImageFileName: parse the URL,
then call path.basename on its pathname.  utils.js never imports the
path module (its imports are got, fs-extra, crypto and the config), so
the block always throws — either the URL constructor rejects the string,
or the very next statement raises a ReferenceError at path.basename —
and never produces a value; none models the thrown exception. -/
def generateImageFileNameTry (url : String) : Option String :=
  match urlPathname url with
  | none => none
  | some _ => none

/-- utils.js generateImageFileName as executed: the try block always
throws (generateImageFileNameTry), so the catch returns, for every URL,
the first eight MD5 hex digits of the URL with the literal extension
jpg.  The written basename branch and the extension sniffing are dead
code. -/
def generateImageFileName (url : String) : String :=
  match generateImageFileNameTry url with
  | some fileName => fileName
  | none => md5Hex8 url ++ ".jpg"

/-! ### lib/config.js default constants -/

def maxConcurrentDefault : Nat := 5
def retryCountDefault : Nat := 3

/-! ### process-images.js extractImageUrls

The two surface syntaxes are matched by the regexes

  markdown:  bang bracket ([^bracket]*) bracket ( (https?://[^space quote paren]+) (space+ quote [^quote]* quote)? )
  html:      img tag with an http or https src attribute, case-insensitive

hand-compiled below into backtracking matchers whose choice points are
tried in the greedy order of the JavaScript engine (every quantifier in
both patterns ranges over a single character class, so classSplits and
plusSplits enumerate exactly the engine's alternatives). -/

structure ImgRef where
  fullMatch : String
  url : String
  rtype : String
  alt : String
  title : String
deriving Repr, DecidableEq

/-- Match the markdown image pattern at the start of the input.  Returns
the remainder plus the alt, url and title captures. -/
def matchMarkdownAt (s : List Char) : Option (List Char × List Char × List Char × List Char) :=
  match lit "![".toList s with
  | none => none
  | some r1 =>
    (classSplits (fun c => c ≠ ']') r1).findSome? fun as =>
    match lit "](".toList as.2 with
    | none => none
    | some r3 =>
      let schemeMatch : Option (List Char × List Char) :=
        match lit "https://".toList r3 with
        | some r => some ("https://".toList, r)
        | none =>
          match lit "http://".toList r3 with
          | some r => some ("http://".toList, r)
          | none => none
      match schemeMatch with
      | none => none
      | some sm =>
        (plusSplits (fun c => !jsIsSpace c && c ≠ '"' && c ≠ ')') sm.2).findSome? fun us =>
        let url := sm.1 ++ us.1
        let withTitle : Option (List Char × List Char × List Char × List Char) :=
          (plusSplits jsIsSpace us.2).findSome? fun ws =>
          match lit ['"'] ws.2 with
          | none => none
          | some r7 =>
            (classSplits (fun c => c ≠ '"') r7).findSome? fun ts =>
            match lit "\")".toList ts.2 with
            | none => none
            | some r9 => some (r9, as.1, url, ts.1)
        match withTitle with
        | some res => some res
        | none =>
          match lit [')'] us.2 with
          | none => none
          | some r5 => some (r5, as.1, url, ([] : List Char))

/-- Match the html img-tag pattern at the start of the input.  Returns
the remainder plus the url capture. -/
def matchHtmlAt (s : List Char) : Option (List Char × List Char) :=
  match litCI "<img".toList s with
  | none => none
  | some r1 =>
    (plusSplits jsIsSpace r1).findSome? fun ws =>
    (classSplits (fun c => c ≠ '>') ws.2).findSome? fun pre =>
    match litCI "src=".toList pre.2 with
    | none => none
    | some r4 =>
      match r4 with
      | [] => none
      | q1 :: r5 =>
        if q1 ≠ '"' && q1 ≠ '\'' then none
        else
          let schemeMatch : Option (List Char × List Char) :=
            match litCI "https://".toList r5 with
            | some r => some (r5.take 8, r)
            | none =>
              match litCI "http://".toList r5 with
              | some r => some (r5.take 7, r)
              | none => none
          match schemeMatch with
          | none => none
          | some sm =>
            (plusSplits (fun c => c ≠ '"' && c ≠ '\'') sm.2).findSome? fun us =>
            match us.2 with
            | [] => none
            | q2 :: r7 =>
              if q2 ≠ '"' && q2 ≠ '\'' then none
              else
                (classSplits (fun c => c ≠ '>') r7).findSome? fun post =>
                match lit ['>'] post.2 with
                | none => none
                | some r9 => some (r9, sm.1 ++ us.1)

/-- The global-exec loop for the markdown regex: leftmost matches,
resuming after each match.  Structural recursion on a fuel bound (one
unit per character, always sufficient because every step consumes at
least one character) keeps the scanner kernel-reducible. -/
def scanMarkdownFuel : Nat → List Char → List ImgRef
  | 0, _ => []
  | _ + 1, [] => []
  | fuel + 1, c :: rest =>
    match matchMarkdownAt (c :: rest) with
    | some res =>
      let len := (c :: rest).length - res.1.length
      let full := (c :: rest).take len
      { fullMatch := String.mk full, url := jsTrim (String.mk res.2.2.1),
        rtype := "markdown", alt := String.mk res.2.1,
        title := String.mk res.2.2.2 } :: scanMarkdownFuel fuel (rest.drop (len - 1))
    | none => scanMarkdownFuel fuel rest

def scanMarkdown (s : List Char) : List ImgRef :=
  scanMarkdownFuel s.length s

/-- The global-exec loop for the html regex. -/
def scanHtmlFuel : Nat → List Char → List ImgRef
  | 0, _ => []
  | _ + 1, [] => []
  | fuel + 1, c :: rest =>
    match matchHtmlAt (c :: rest) with
    | some res =>
      let len := (c :: rest).length - res.1.length
      let full := (c :: rest).take len
      { fullMatch := String.mk full, url := jsTrim (String.mk res.2),
        rtype := "html", alt := "", title := "" } :: scanHtmlFuel fuel (rest.drop (len - 1))
    | none => scanHtmlFuel fuel rest

def scanHtml (s : List Char) : List ImgRef :=
  scanHtmlFuel s.length s

def scanMarkdownRefs (content : String) : List ImgRef :=
  scanMarkdown content.toList

def scanHtmlRefs (content : String) : List ImgRef :=
  scanHtml content.toList

/-- extractImageUrls: all markdown matches in order, then each html
match unless its exact substring or its url already occurs in the list
accumulated so far (which contains the markdown matches and the
previously kept html matches). -/
def extractImageUrls (content : String) : List ImgRef :=
  (scanHtmlRefs content).foldl
    (fun acc h =>
      if acc.any fun i => i.fullMatch = h.fullMatch || i.url = h.url then acc
      else acc ++ [h])
    (scanMarkdownRefs content)

/-! ### Data model: one collection's on-disk state

A collection has an input directory of markdown sources, an output
directory with the rewritten documents, an images subdirectory, a
mapping.json and an optional missing-images.json.  Paths are normalised
to collection-relative form, so the images directory entry for name n is
the path images/n.  A JSON file is modelled as Option (Option _): none
when the file is absent, some none when it exists but does not parse,
some (some v) when parsed. -/

structure MapEntry where
  originalUrl : String
  localPath : String
deriving Repr, DecidableEq

structure MapMeta where
  sourceFileHash : Option String
  lastProcessed : Option String
deriving Repr, DecidableEq

/-- mapping.json: the reserved key holds the metadata object, every
other key is an asset entry (keys are unique in a JSON object and keep
insertion order, as the association list does). -/
structure MappingFile where
  metadata : Option MapMeta
  assets : List (String × MapEntry)
deriving Repr, DecidableEq

structure MissEntry where
  originalUrl : String
  expectedPath : String
  localFilePath : String
  error : String
  sourceFile : String
deriving Repr, DecidableEq

structure FolderFS where
  sources : List (String × String)
  outputs : List (String × String)
  images : List String
  mapFile : Option (Option MappingFile)
  missFile : Option (Option (List (String × MissEntry)))
deriving Repr, DecidableEq

/-- JS object assignment obj[k] = v: updates the existing key in place
or appends a new one. -/
def upsert {α : Type} (k : String) (v : α) : List (String × α) → List (String × α)
  | [] => [(k, v)]
  | kv :: rest => if kv.1 = k then (k, v) :: rest else kv :: upsert k v rest

def lookupKey {α : Type} (k : String) : List (String × α) → Option α
  | [] => none
  | kv :: rest => if kv.1 = k then some kv.2 else lookupKey k rest

/-- JS delete obj[k]. -/
def eraseKey {α : Type} (k : String) : List (String × α) → List (String × α)
  | [] => []
  | kv :: rest => if kv.1 = k then eraseKey k rest else kv :: eraseKey k rest

/-- Adding to a Set (or creating a file): no duplicates, insertion order. -/
def addElem (n : String) (l : List String) : List String :=
  if l.contains n then l else l ++ [n]

/-- key.startsWith underscore, the reserved-key test. -/
def isMetaKey (k : String) : Bool :=
  match k.toList with
  | '_' :: _ => true
  | _ => false

/-- file.endsWith .md, the source-file filter of processFolder. -/
def isMdFile (k : String) : Bool :=
  match k.toList.reverse with
  | 'd' :: 'm' :: '.' :: _ => true
  | _ => false

/-! ### process-images.js -/

/-- The message carried by the error thrown after RETRY_COUNT failed
attempts; the underlying network error text is external input, fixed
here to one representative value. -/
def dlFailMsg : String := "下载失败 (尝试 3 次): network error"

/-- The truthiness test mapping._metadata && mapping._metadata.sourceFileHash:
an absent metadata object, an absent field, or an empty string all leave
lastProcessedHash null. -/
def jsHashOpt (m : MappingFile) : Option String :=
  match m.metadata with
  | none => none
  | some md =>
    match md.sourceFileHash with
    | none => none
    | some h => if h = "" then none else some h

def hasOutput (fs : FolderFS) (fileName : String) : Bool :=
  (lookupKey fileName fs.outputs).isSome

/-- The guard on line 125: lastProcessedHash && lastProcessedHash !== contentHash. -/
def lpMismatch (lp : Option String) (h : String) : Bool :=
  match lp with
  | some x => if x = h then false else true
  | none => false

/-- The final return value on lines 133 and 150:
lastProcessedHash === contentHash || !lastProcessedHash. -/
def hashOkFinal (lp : Option String) (h : String) : Bool :=
  match lp with
  | some x => if x = h then true else false
  | none => true

/-- isFileProcessed (process-images.js lines 92-155). -/
def isFileProcessed (fs : FolderFS) (fileName content : String) : Bool :=
  if !hasOutput fs fileName then false
  else
    match fs.mapFile with
    | none => false
    | some none => false
    | some (some mapping) =>
      let contentHash := calculateFileHash content
      let lastProcessedHash := jsHashOpt mapping
      if lpMismatch lastProcessedHash contentHash then false
      else
        let imageUrls := extractImageUrls content
        if imageUrls.isEmpty then hashOkFinal lastProcessedHash contentHash
        else if imageUrls.all fun r => fs.images.contains (generateImageFileName r.url) then
          hashOkFinal lastProcessedHash contentHash
        else false

/-- Result of one downloadImage call: success flag, the images directory
afterwards, and the network requests issued. -/
structure DlOutcome where
  ok : Bool
  images : List String
  events : List String
deriving Repr, DecidableEq

/-- downloadImage (lines 23-51): short-circuits without any network call
when the target file exists; otherwise attempts the transfer, writing
the file only on success.  The network is an oracle from URL to success;
a failing URL consumes RETRY_COUNT attempts (each one request). -/
def downloadImage (oracle : String → Bool) (images : List String) (url name : String) : DlOutcome :=
  if images.contains name then ⟨true, images, []⟩
  else if oracle url then ⟨true, addElem name images, [url]⟩
  else ⟨false, images, List.replicate retryCountDefault url⟩

/-- One entry of the downloadResults map (keyed by fullMatch). -/
structure DlResult where
  ok : Bool
  imageFileName : String
  relativeImagePath : String
  rtype : String
  alt : String
  title : String
deriving Repr, DecidableEq

structure LoopState where
  images : List String
  mapping : MappingFile
  missing : List (String × MissEntry)
  used : List String
  events : List String
  results : List (String × DlResult)
  downloadedCount : Nat
deriving Repr, DecidableEq

/-- The body of the download loop (lines 231-277) for one reference.
Download completions are sequentialised here; this is observationally
equivalent for the modelled state because the local file name is a
function of the URL alone (the interleaving of in-flight downloads is
treated separately by the trace model below). -/
def processRef (oracle : String → Bool) (fileName : String) (st : LoopState) (r : ImgRef) : LoopState :=
  let imageFileName := generateImageFileName r.url
  let relativeImagePath := "images/" ++ imageFileName
  let st := { st with
    used := addElem imageFileName st.used,
    mapping := { st.mapping with
      assets := upsert imageFileName ⟨r.url, relativeImagePath⟩ st.mapping.assets } }
  if st.images.contains imageFileName then
    { st with
      downloadedCount := st.downloadedCount + 1
      results := upsert r.fullMatch ⟨true, imageFileName, relativeImagePath, r.rtype, r.alt, r.title⟩ st.results }
  else
    let dl := downloadImage oracle st.images r.url imageFileName
    if dl.ok then
      { st with
        images := dl.images
        events := st.events ++ dl.events
        downloadedCount := st.downloadedCount + 1
        results := upsert r.fullMatch ⟨true, imageFileName, relativeImagePath, r.rtype, r.alt, r.title⟩ st.results }
    else
      { st with
        events := st.events ++ dl.events
        missing := upsert imageFileName
          ⟨r.url, relativeImagePath, "images/" ++ imageFileName, dlFailMsg, fileName⟩ st.missing
        results := upsert r.fullMatch ⟨false, imageFileName, relativeImagePath, r.rtype, r.alt, r.title⟩ st.results }

def runRefs (oracle : String → Bool) (fileName : String) (st : LoopState) (refs : List ImgRef) : LoopState :=
  refs.foldl (processRef oracle fileName) st

/-- First-occurrence substring split: the part before the pattern and
the part after it. -/
def splitAtSub? (pat : List Char) : List Char → Option (List Char × List Char)
  | [] => if pat.isEmpty then some ([], []) else none
  | c :: rest =>
    if pat.isPrefixOf (c :: rest) then some ([], (c :: rest).drop pat.length)
    else
      match splitAtSub? pat rest with
      | some x => some (c :: x.1, x.2)
      | none => none

/-- String.prototype.replace with a string pattern: first occurrence
only, unchanged when absent. -/
def replaceFirst (s pat repl : String) : String :=
  match splitAtSub? pat.toList s.toList with
  | some x => String.mk (x.1 ++ repl.toList ++ x.2)
  | none => s

/-- Match the src-attribute regex at the start of the input, returning
the match length. -/
def matchSrcAt (s : List Char) : Option Nat :=
  match litCI "src=".toList s with
  | none => none
  | some r =>
    match r with
    | [] => none
    | q1 :: r2 =>
      if q1 ≠ '"' && q1 ≠ '\'' then none
      else
        (plusSplits (fun c => c ≠ '"' && c ≠ '\'') r2).findSome? fun vs =>
        match vs.2 with
        | [] => none
        | q2 :: _ =>
          if q2 ≠ '"' && q2 ≠ '\'' then none
          else some (4 + 1 + vs.1.length + 1)

def replaceSrcAux (rel : String) : List Char → Option (List Char)
  | [] => none
  | c :: rest =>
    match matchSrcAt (c :: rest) with
    | some len => some ("src=\"".toList ++ rel.toList ++ ['"'] ++ (c :: rest).drop len)
    | none =>
      match replaceSrcAux rel rest with
      | some out => some (c :: out)
      | none => none

/-- fullMatch.replace(src-regex, quoted local path) — line 303. -/
def replaceSrcInTag (tag rel : String) : String :=
  match replaceSrcAux rel tag.toList with
  | some out => String.mk out
  | none => tag

/-- The rewrite loop body (lines 290-308): only references whose
download succeeded are substituted. -/
def rewriteOne (results : List (String × DlResult)) (content : String) (r : ImgRef) : String :=
  match lookupKey r.fullMatch results with
  | some res =>
    if res.ok then
      if res.rtype = "markdown" then
        let titlePart := if res.title = "" then "" else " \"" ++ res.title ++ "\""
        replaceFirst content r.fullMatch
          ("![" ++ res.alt ++ "](" ++ res.relativeImagePath ++ titlePart ++ ")")
      else if res.rtype = "html" then
        replaceFirst content r.fullMatch (replaceSrcInTag r.fullMatch res.relativeImagePath)
      else content
    else content
  | none => content

def rewriteContent (results : List (String × DlResult)) (refs : List ImgRef) (content : String) : String :=
  refs.foldl (rewriteOne results) content

structure FileStats where
  processed : Bool
  skipped : Bool
  imagesCount : Nat
  downloadedCount : Nat
  failedCount : Nat
deriving Repr, DecidableEq

/-- The in-memory state processFolder threads through the per-file calls:
the collection state on disk, the fresh in-memory mapping object created
on line 368, the missing-images record, the used-assets set and the log
of network requests. -/
structure PassState where
  fs : FolderFS
  mapping : MappingFile
  missing : List (String × MissEntry)
  used : List String
  events : List String
deriving Repr, DecidableEq

/-- The skip branch statistic (lines 181-188): non-reserved key count of
the on-disk mapping, zero when it is absent or unparsable. -/
def diskNonMetaCount (fs : FolderFS) : Nat :=
  match fs.mapFile with
  | some (some m) => (m.assets.filter fun kv => !isMetaKey kv.1).length
  | _ => 0

/-- processMarkdownFile (lines 158-340). -/
def processMarkdownFile (oracle : String → Bool) (now : String)
    (fileName content : String) (ps : PassState) : PassState × FileStats :=
  let contentHash := calculateFileHash content
  if isFileProcessed ps.fs fileName content then
    let names := (extractImageUrls content).map fun r => generateImageFileName r.url
    ({ ps with used := names.foldl (fun u n => addElem n u) ps.used },
     { processed := true, skipped := true, imagesCount := diskNonMetaCount ps.fs,
       downloadedCount := 0, failedCount := 0 })
  else
    let imageUrls := extractImageUrls content
    if imageUrls.isEmpty then
      let mapping := { ps.mapping with metadata := some ⟨some contentHash, some now⟩ }
      ({ ps with
          fs := { ps.fs with
                  outputs := upsert fileName content ps.fs.outputs
                  mapFile := some (some mapping) }
          mapping := mapping },
       { processed := true, skipped := false, imagesCount := 0,
         downloadedCount := 0, failedCount := 0 })
    else
      let st := runRefs oracle fileName
        ⟨ps.fs.images, ps.mapping, ps.missing, ps.used, ps.events, [], 0⟩ imageUrls
      let newContent := rewriteContent st.results imageUrls content
      let mapping := { st.mapping with metadata := some ⟨some contentHash, some now⟩ }
      ({ fs := { ps.fs with
                 images := st.images
                 outputs := upsert fileName newContent ps.fs.outputs }
         mapping := mapping
         missing := st.missing
         used := st.used
         events := st.events },
       { processed := true, skipped := false, imagesCount := imageUrls.length,
         downloadedCount := st.downloadedCount,
         failedCount := imageUrls.length - st.downloadedCount })

/-- Statistics and outcome of one processFolder call.  aborted records
that the pass threw before its file loop (see syncFolder below) and the
process exited with code 1. -/
structure FolderStats where
  processedCount : Nat
  skippedCount : Nat
  totalImages : Nat
  totalDownloaded : Nat
  totalFailed : Nat
  used : List String
  events : List String
  persisted : Option MappingFile
  aborted : Bool
deriving Repr, DecidableEq

/-- The cleanup of mapping.json (lines 439-450): keep, in used-set
order, exactly the used names that the in-memory mapping knows. -/
def cleanedAssets (used : List String) (assets : List (String × MapEntry)) : List (String × MapEntry) :=
  used.foldr (fun f acc =>
    match lookupKey f assets with
    | some e => (f, e) :: acc
    | none => acc) []

/-- processFolder (lines 343-491): after the no-files early return,
when mapping.json already exists the block on lines 383-391 runs and
calls log(...) — but log is the Logger instance created on line 19, not
a callable, so line 388 throws TypeError, the catch on line 389 calls
log(...) again (line 390) and the TypeError escapes processFolder; main
catches it and exits with code 1.  Every pass over a collection whose
mapping.json exists (parsable or not) therefore aborts before a single
document is read, modelled by the aborted result that leaves the
collection state untouched.  Otherwise the pass runs every markdown
source through processMarkdownFile, then the cleanup pass, then
persists mapping.json and the failure ledger; persisted records the
mapping written on line 453. -/
def syncFolder (oracle : String → Bool) (now : String) (fs : FolderFS) : FolderFS × FolderStats :=
  let files := fs.sources.filter fun kv => isMdFile kv.1
  if files.isEmpty then
    (fs, ⟨0, 0, 0, 0, 0, [], [], none, false⟩)
  else if fs.mapFile.isSome then
    (fs, ⟨0, 0, 0, 0, 0, [], [], none, true⟩)
  else
    let step := fun (acc : PassState × FolderStats) (kv : String × String) =>
      let pr := processMarkdownFile oracle now kv.1 kv.2 acc.1
      (pr.1,
       { acc.2 with
         processedCount := acc.2.processedCount + (if pr.2.processed then 1 else 0)
         skippedCount := acc.2.skippedCount + (if pr.2.processed && pr.2.skipped then 1 else 0)
         totalImages := acc.2.totalImages + (if pr.2.processed then pr.2.imagesCount else 0)
         totalDownloaded := acc.2.totalDownloaded + (if pr.2.processed then pr.2.downloadedCount else 0)
         totalFailed := acc.2.totalFailed + (if pr.2.processed then pr.2.failedCount else 0) })
    let res := files.foldl step (⟨fs, ⟨none, []⟩, [], [], []⟩, ⟨0, 0, 0, 0, 0, [], [], none, false⟩)
    let ps := res.1
    let images := ps.fs.images.filter fun f => ps.used.contains f
    let cleaned : MappingFile := ⟨ps.mapping.metadata, cleanedAssets ps.used ps.mapping.assets⟩
    let missFile := if ps.missing.isEmpty then none else some (some ps.missing)
    ({ ps.fs with
        images := images
        mapFile := some (some cleaned)
        missFile := missFile },
     { res.2 with
        used := ps.used
        events := ps.events
        persisted := some cleaned })

def initFolder (content : String) : FolderFS :=
  ⟨[("a.md", content)], [], [], none, none⟩

/-! ### fix-missing-images.js -/

structure MissItem where
  fileName : String
  originalUrl : String
  expectedPath : String
  error : String
  sourceFile : String
deriving Repr, DecidableEq

def ledgerEntries (fs : FolderFS) : List (String × MissEntry) :=
  match fs.missFile with
  | some (some l) => l
  | _ => []

/-- The ledger walk of scanForMissingImages (lines 49-69): every ledger
entry whose file is absent, the download target taken from the recorded
localFilePath when that string is truthy. -/
def scanLedgerMissing (fs : FolderFS) : List MissItem :=
  match fs.missFile with
  | some (some entries) =>
    entries.foldl (fun acc kv =>
      if fs.images.contains kv.1 then acc
      else acc ++ [⟨kv.1, kv.2.originalUrl,
        (if kv.2.localFilePath = "" then "images/" ++ kv.1 else kv.2.localFilePath),
        kv.2.error, kv.2.sourceFile⟩]) []
  | _ => []

/-- The mapping walk (lines 72-101): non-reserved keys whose file is
absent and which the ledger walk has not already collected. -/
def scanMappingMissing (fs : FolderFS) (acc0 : List MissItem) : List MissItem :=
  match fs.mapFile with
  | some (some mapping) =>
    mapping.assets.foldl (fun acc kv =>
      if isMetaKey kv.1 then acc
      else if fs.images.contains kv.1 then acc
      else if acc.any fun it => it.fileName = kv.1 then acc
      else acc ++ [⟨kv.1, kv.2.originalUrl, "images/" ++ kv.1, "文件不存在", "未知"⟩]) acc0
  | _ => acc0

/-- The orphan walk (lines 103-130): image files with no truthy mapping
key.  An absent mapping file reads as an empty object, so every file is
orphaned; an unparsable one aborts the walk inside its try block. -/
def scanOrphaned (fs : FolderFS) : List String :=
  match fs.mapFile with
  | none => fs.images
  | some none => []
  | some (some mapping) =>
    fs.images.filter fun f =>
      !((lookupKey f mapping.assets).isSome || (f = "_metadata" && mapping.metadata.isSome))

def scanForMissingImages (fs : FolderFS) : List MissItem × List String :=
  (scanMappingMissing fs (scanLedgerMissing fs), scanOrphaned fs)

/-- The image name carried by a collection-relative path into the
images directory, if any. -/
def parsePath (p : String) : Option String :=
  match p.toList with
  | 'i' :: 'm' :: 'a' :: 'g' :: 'e' :: 's' :: '/' :: rest => some (String.mk rest)
  | _ => none

/-- Writing downloaded bytes at a collection-relative path.  A path in
the images directory creates that image; raw image bytes written over a
JSON file leave it unparsable; written over a document they replace its
text; any other path is outside the modelled collection state. -/
def fsWriteAt (p : String) (fs : FolderFS) : FolderFS :=
  match parsePath p with
  | some name => { fs with images := addElem name fs.images }
  | none =>
    if p = "mapping.json" then { fs with mapFile := some none }
    else if p = "missing-images.json" then { fs with missFile := some none }
    else if (lookupKey p fs.outputs).isSome then
      { fs with outputs := upsert p "binary image bytes" fs.outputs }
    else fs

structure FixState where
  fs : FolderFS
  ledger : List (String × MissEntry)
  fixedCount : Nat
  failedCount : Nat
deriving Repr, DecidableEq

/-- One iteration of the retry loop (lines 183-206): on success write
the file at the recorded expected path and delete the ledger entry; on
failure update the recorded error if an entry exists. -/
def fixStep (oracle : String → Bool) (st : FixState) (item : MissItem) : FixState :=
  if oracle item.originalUrl then
    { st with
      fs := fsWriteAt item.expectedPath st.fs
      ledger := eraseKey item.fileName st.ledger
      fixedCount := st.fixedCount + 1 }
  else
    { st with
      failedCount := st.failedCount + 1
      ledger := st.ledger.map fun kv =>
        if kv.1 = item.fileName then (kv.1, { kv.2 with error := dlFailMsg }) else kv }

/-- updateMissingImagesFile (lines 136-150). -/
def updateMissingImagesFile (fs : FolderFS) (ledger : List (String × MissEntry)) : FolderFS :=
  if ledger.isEmpty then { fs with missFile := none }
  else { fs with missFile := some (some ledger) }

/-- fix-missing-images.js processFolder (lines 152-232): scan, early
return when nothing is missing or orphaned, retry every missing asset,
then rewrite the ledger.  Returns the state plus the fixed, failed and
orphaned counts. -/
def fixFolder (oracle : String → Bool) (fs : FolderFS) : FolderFS × Nat × Nat × Nat :=
  let scan := scanForMissingImages fs
  if scan.1.isEmpty && scan.2.isEmpty then (fs, 0, 0, 0)
  else
    let st := scan.1.foldl (fixStep oracle) ⟨fs, ledgerEntries fs, 0, 0⟩
    (updateMissingImagesFile st.fs st.ledger, st.fixedCount, st.failedCount, scan.2.length)

/-! ### Concurrency trace model for the download phase

The sequential state model above cannot express in-flight concurrency,
so the launch and completion structure of the download phase is
modelled as an event trace.  In processMarkdownFile the call
downloadImage(url, localImagePath) on line 256 runs inside the
synchronous for loop: the async function executes up to its got(...)
call immediately, so the network request of every cache-miss reference
is issued before the loop ends.  The chunked Promise.all on lines
280-287 only awaits the already-running promises, and promise
resolutions cannot run before the synchronous loop finishes.  Hence for
n cache-miss references the trace is n starts followed by n finishes. -/

inductive DlEvent where
  | start (i : Nat)
  | finish (i : Nat)
deriving Repr, DecidableEq

def maxInFlightAux : List DlEvent → Nat → Nat → Nat
  | [], _, m => m
  | DlEvent.start _ :: rest, cur, m => maxInFlightAux rest (cur + 1) (max m (cur + 1))
  | DlEvent.finish _ :: rest, cur, m => maxInFlightAux rest (cur - 1) m

/-- The largest number of simultaneously in-flight downloads along a
trace. -/
def maxInFlight (tr : List DlEvent) : Nat :=
  maxInFlightAux tr 0 0

/-- The trace the code actually produces for n cache-miss references. -/
def codeDownloadTrace (n : Nat) : List DlEvent :=
  ((List.range n).map DlEvent.start) ++ ((List.range n).map DlEvent.finish)

def chunksOfFuel (k : Nat) : Nat → List Nat → List (List Nat)
  | 0, _ => []
  | _ + 1, [] => []
  | fuel + 1, x :: rest =>
    if k = 0 then [x :: rest]
    else ((x :: rest).take k) :: chunksOfFuel k fuel ((x :: rest).drop k)

def chunksOf (k : Nat) (l : List Nat) : List (List Nat) :=
  chunksOfFuel k l.length l

/-- The strictly batched wave policy the specification describes: each
group of at most conc downloads is launched together and fully awaited
before the next group starts. -/
def batchedTrace (conc n : Nat) : List DlEvent :=
  (chunksOf conc (List.range n)).foldr
    (fun g acc => g.map DlEvent.start ++ g.map DlEvent.finish ++ acc) []

/-! ### Observation helpers over the persisted state -/

/-- The mapping file exists and parses. -/
def mapParses (fs : FolderFS) : Bool :=
  match fs.mapFile with
  | some (some _) => true
  | _ => false

/-- The truthy sourceFileHash recorded in the persisted mapping. -/
def diskHashOpt (fs : FolderFS) : Option String :=
  match fs.mapFile with
  | some (some m) => jsHashOpt m
  | _ => none

/-- Non-reserved keys of the persisted mapping. -/
def diskAssetKeys (fs : FolderFS) : List String :=
  match fs.mapFile with
  | some (some m) => m.assets.map Prod.fst
  | _ => []

/-- Whether the persisted mapping carries a metadata entry. -/
def diskMetaIsSome (fs : FolderFS) : Bool :=
  match fs.mapFile with
  | some (some m) => m.metadata.isSome
  | _ => false

/-- A metadata entry exists whose sourceFileHash equals the current
fingerprint of the given content. -/
def metadataHashEq (fs : FolderFS) (content : String) : Bool :=
  match fs.mapFile with
  | some (some m) =>
    match m.metadata with
    | some md => if md.sourceFileHash = some (calculateFileHash content) then true else false
    | none => false
  | _ => false

/-! ### Shared concrete scenario: one document with one image -/

def exDoc : String := "x ![a](http://h.example/p.png) y"

def oracleAll : String → Bool := fun _ => true

def oracleNone : String → Bool := fun _ => false

/-- State after a first, fully successful sync pass from a clean state. -/
def twoRunFS1 : FolderFS := (syncFolder oracleAll "t1" (initFolder exDoc)).1

/-- State after a single pass in which the only download fails. -/
def failRunFS : FolderFS := (syncFolder oracleNone "t1" (initFolder exDoc)).1

/-- The same document after an upstream content change. -/
def exDoc2 : String := "changed ![a](http://h.example/p.png) end"

def c7doc : String :=
  "<img src=\"http://h.example/a.png\" alt=\"x\"> <img src=\"http://h.example/a.png\" alt=\"y\">"

/-- The html-side deduplication as a standalone recursion: a candidate
is dropped when any previously kept reference (markdown or html) shares
its exact substring or its URL. -/
def dedupHtmlRefs (kept : List ImgRef) : List ImgRef → List ImgRef
  | [] => []
  | h :: t =>
    if kept.any fun i => i.fullMatch = h.fullMatch || i.url = h.url then dedupHtmlRefs kept t
    else h :: dedupHtmlRefs (kept ++ [h]) t

/-- The recognised image extensions are those the sniffing regex knows. -/
def extAfterDot (name : String) : String :=
  String.mk (((name.toList.reverse.takeWhile (· ≠ '.')).reverse).map toLowerAscii)

def hasRecognizedExt (name : String) : Bool :=
  name.toList.contains '.' && recognizedExts.contains (extAfterDot name)

/-- Modelled from the spec: the LocalAssetName rule of section 3 as
written — the name is derived from the URL path segment only if that
segment has a recognizable extension (one of the extensions the sniffer
recognises), otherwise a short hash of the URL with a sniffed extension
defaulting to jpg.  Stated for comparison with the source function
generateImageFileName, which as executed returns the hash name for
every URL. -/
def specAssetName (url : String) : String :=
  match urlPathname url with
  | none => md5Hex8 url ++ ".jpg"
  | some pathname =>
    let fileName := pathBasename pathname
    if hasRecognizedExt fileName then sanitizeName fileName
    else md5Hex8 url ++ "." ++ sniffExt url

/-- A collection whose mapping references one asset that is absent from
disk, with no failure ledger, and a network that stays down. -/
def c8fs : FolderFS :=
  ⟨[], [], [],
   some (some ⟨none, [("x.png", ⟨"http://h.example/x.png", "images/x.png"⟩)]⟩), none⟩

/-- Non-reserved keys of the mapping a pass persisted (none recorded
when the early no-files return skipped persisting). -/
def persistedKeys (st : FolderStats) : List String :=
  match st.persisted with
  | some m => m.assets.map Prod.fst
  | none => []

/-- The path denotes a file inside the images directory. -/
def pathIsImage (p : String) : Bool :=
  (parsePath p).isSome

/-- Every ledger entry's recorded download target is either absent
(falsy) or a path inside the images directory — true of every ledger
the pipeline itself writes, whose localFilePath is always the image
file path. -/
def ledgerPathsWF (fs : FolderFS) : Bool :=
  (ledgerEntries fs).all fun kv =>
    if kv.2.localFilePath = "" then true else pathIsImage kv.2.localFilePath

/-! ### C1 -/

/-- C1: the claim says in-flight downloads for one document never
exceed MAX_CONCURRENT because references are awaited in batched waves.
The code instead invokes downloadImage for every cache-miss reference
inside the synchronous loop, so every network request is issued before
the chunked awaits run: with the default bound of five, a document with
six cache-miss references has all six downloads in flight at once,
whereas the batched-wave policy the claim describes would cap the trace
at five. -/
theorem C1_eager_launch_exceeds_bound :
    maxInFlight (codeDownloadTrace 6) = 6 ∧
    maxConcurrentDefault < maxInFlight (codeDownloadTrace 6) ∧
    maxInFlight (batchedTrace maxConcurrentDefault 6) = maxConcurrentDefault := by
  decide

/-! ### C7 -/

/-- C7 counterexample: two distinct tag-attribute references to one URL
and no inline-link reference at all; extraction keeps only one of them,
so a tag-attribute match is discarded although no inline-link match
captured its substring or URL, and a URL referenced twice does not
yield two references. -/
theorem C7_html_url_dedup :
    (scanMarkdownRefs c7doc).length = 0 ∧
    (scanHtmlRefs c7doc).length = 2 ∧
    ((scanHtmlRefs c7doc).map fun r => r.url) =
      ["http://h.example/a.png", "http://h.example/a.png"] ∧
    ((scanHtmlRefs c7doc).map fun r => r.fullMatch).Nodup ∧
    (extractImageUrls c7doc).length = 1 := by
  decide

theorem extract_foldl_eq_dedup (hs : List ImgRef) (acc : List ImgRef) :
    hs.foldl
      (fun acc h =>
        if acc.any fun i => i.fullMatch = h.fullMatch || i.url = h.url then acc
        else acc ++ [h]) acc
    = acc ++ dedupHtmlRefs acc hs := by
  induction hs generalizing acc with
  | nil => simp [dedupHtmlRefs]
  | cons h t ih =>
    simp only [List.foldl_cons, dedupHtmlRefs]
    by_cases hc : (acc.any fun i => i.fullMatch = h.fullMatch || i.url = h.url) = true
    · simp only [hc, if_true, ih]
    · simp only [Bool.not_eq_true] at hc
      simp only [hc, Bool.false_eq_true, if_false, ih, List.append_assoc, List.cons_append,
        List.nil_append]

/-- C7 amended: extraction yields every inline-link match in order and
never deduplicates among them; a tag-attribute match is discarded
exactly when its substring or URL was already captured by an earlier
kept match of either syntax, not only by an inline-link match. -/
theorem C7_extraction_structure (content : String) :
    extractImageUrls content =
      scanMarkdownRefs content ++ dedupHtmlRefs (scanMarkdownRefs content) (scanHtmlRefs content) := by
  unfold extractImageUrls
  exact extract_foldl_eq_dedup (scanHtmlRefs content) (scanMarkdownRefs content)

/-! ### C4 -/

/-- C4: the claim says the local name is derived from the URL basename
when it has a recognizable extension, otherwise a short hash with a
sniffed extension.  Because utils.js never imports path, the basename
logic is dead: every call throws inside the try and the catch returns
the MD5 prefix with the literal extension jpg.  The theorem evaluates
the code on a URL whose basename a.png has a recognizable extension —
the spec-mandated name would be a.png, the code produces the hash name
— and proves the uniform hash naming for every URL (which also gives
the determinism half of the claim). -/
theorem C4_every_url_hash_named :
    (∀ u, generateImageFileName u = md5Hex8 u ++ ".jpg") ∧
    hasRecognizedExt "a.png" = true ∧
    specAssetName "http://h.example/a.png" = "a.png" ∧
    generateImageFileName "http://h.example/a.png" ≠ "a.png" := by
    refine ⟨?_, by decide, by decide, by decide⟩
    intro u
    unfold generateImageFileName generateImageFileNameTry
    cases hu : urlPathname u with
    | none => rfl
    | some p => rfl

/-! ### C2 -/

/-- C2 counterexample: starting from a clean collection, the only
reference fails to download.  After the pass persists its state, the
failed asset name is a non-reserved key of the persisted mapping even
though its file was never downloaded (the images directory stays empty
throughout, so it was never successfully downloaded at any point); it is
also in the failure ledger and the used set, as the claim says. -/
theorem C2_failed_asset_persisted_in_mapping :
    diskAssetKeys failRunFS = [generateImageFileName "http://h.example/p.png"] ∧
    failRunFS.images = [] ∧
    ((ledgerEntries failRunFS).map Prod.fst) = [generateImageFileName "http://h.example/p.png"] ∧
    (syncFolder oracleNone "t1" (initFolder exDoc)).2.used =
      [generateImageFileName "http://h.example/p.png"] := by
  decide

/-! ### C3 -/

/-- C3: the claim says a document whose content hash changed between
runs is reprocessed.  After a first successful pass the mapping records
the old fingerprint; when the document content changes upstream and the
engine runs again, the pass aborts (mapping.json exists, so the bare
log call of line 388 throws) before any document is read: nothing is
reprocessed, nothing is written, and the recorded hash — which differs
from the new fingerprint, so the skip logic itself would have forced a
reprocess — is never even consulted. -/
theorem C3_changed_doc_not_reprocessed :
    calculateFileHash exDoc2 ≠ calculateFileHash exDoc ∧
    diskHashOpt twoRunFS1 = some (calculateFileHash exDoc) ∧
    (syncFolder oracleAll "t2" { twoRunFS1 with sources := [("a.md", exDoc2)] }).2.aborted = true ∧
    (syncFolder oracleAll "t2" { twoRunFS1 with sources := [("a.md", exDoc2)] }).2.processedCount = 0 ∧
    (syncFolder oracleAll "t2" { twoRunFS1 with sources := [("a.md", exDoc2)] }).1.outputs =
      twoRunFS1.outputs := by
  decide

/-! ### C6 -/

/-- C6: the claim says every pass — including one where every document
is skipped — completes its cleanup with the metadata entry preserved
and the non-reserved keys equal to the used set.  The pass in which
every document would be skipped is a rerun over a collection whose
mapping.json exists, and any such pass aborts at line 388 (TypeError:
log is not a function) before the file loop, the cleanup and the
persist: the pass processes nothing, persists nothing, and the on-disk
mapping survives only because the pass never reaches its full rewrite. -/
theorem C6_second_pass_aborts_before_cleanup :
    diskMetaIsSome twoRunFS1 = true ∧
    diskAssetKeys twoRunFS1 = [generateImageFileName "http://h.example/p.png"] ∧
    (syncFolder oracleAll "t2" twoRunFS1).2.aborted = true ∧
    (syncFolder oracleAll "t2" twoRunFS1).2.processedCount = 0 ∧
    (syncFolder oracleAll "t2" twoRunFS1).2.persisted = none ∧
    (syncFolder oracleAll "t2" twoRunFS1).1 = twoRunFS1 := by
  decide

/-! ### C8 -/

/-- C8 counterexample: the recovery pass retries the mapping-referenced
absent asset, the retry fails, and because failure handling only
updates pre-existing ledger entries, the pass ends with the asset still
absent from disk, still referenced by the mapping, and not listed in
the failure ledger (which does not even exist) — refuting the claimed
equivalence between file existence and absence from the ledger. -/
theorem C8_recovery_leaves_inconsistency :
    diskAssetKeys c8fs = ["x.png"] ∧
    (fixFolder oracleNone c8fs).2.2.1 = 1 ∧
    (fixFolder oracleNone c8fs).1.images = [] ∧
    (fixFolder oracleNone c8fs).1.missFile = none ∧
    diskAssetKeys (fixFolder oracleNone c8fs).1 = ["x.png"] := by
  decide

/-! ### C3 amended: a full characterization of the skip decision -/

theorem isFileProcessed_characterization (fs : FolderFS) (fileName content : String) :
    isFileProcessed fs fileName content = true ↔
      (hasOutput fs fileName = true ∧ mapParses fs = true ∧
       (diskHashOpt fs = none ∨ diskHashOpt fs = some (calculateFileHash content)) ∧
       (extractImageUrls content).all
         (fun r => fs.images.contains (generateImageFileName r.url)) = true) := by
  unfold isFileProcessed mapParses diskHashOpt
  cases hho : hasOutput fs fileName with
  | false => simp
  | true =>
    simp only [Bool.not_true, Bool.false_eq_true, if_false, true_and]
    cases hmf : fs.mapFile with
    | none => simp
    | some om =>
      cases om with
      | none => simp
      | some mapping =>
        simp only [true_and]
        cases hlp : jsHashOpt mapping with
        | none =>
          simp only [lpMismatch, hashOkFinal, Bool.false_eq_true, if_false, true_or, true_and]
          cases hie : (extractImageUrls content).isEmpty with
          | true =>
            rw [List.isEmpty_iff.mp hie]
            simp
          | false =>
            simp only [Bool.false_eq_true, if_false]
            cases hall : (extractImageUrls content).all
                (fun r => fs.images.contains (generateImageFileName r.url)) <;> simp [hall]
        | some x =>
          by_cases hx : x = calculateFileHash content
          · simp only [lpMismatch, hashOkFinal, if_pos hx, Bool.false_eq_true, if_false]
            have hdisj : (some x = none ∨ some x = some (calculateFileHash content)) :=
              Or.inr (by rw [hx])
            simp only [hdisj, true_and]
            cases hie : (extractImageUrls content).isEmpty with
            | true =>
              rw [List.isEmpty_iff.mp hie]
              simp
            | false =>
              simp only [Bool.false_eq_true, if_false]
              cases hall : (extractImageUrls content).all
                  (fun r => fs.images.contains (generateImageFileName r.url)) <;> simp [hall]
          · simp only [lpMismatch, if_neg hx, if_true]
            simp [hx]

/-! ### C2 amended -/

theorem cleanedAssets_cons (f : String) (t : List String) (assets : List (String × MapEntry)) :
    cleanedAssets (f :: t) assets =
      (match lookupKey f assets with
       | some e => (f, e) :: cleanedAssets t assets
       | none => cleanedAssets t assets) := rfl

theorem cleanedAssets_key_mem (used : List String) (assets : List (String × MapEntry))
    (k : String) (hk : k ∈ (cleanedAssets used assets).map Prod.fst) : k ∈ used := by
  induction used with
  | nil => simp [cleanedAssets] at hk
  | cons f t ih =>
    rw [cleanedAssets_cons] at hk
    cases hl : lookupKey f assets with
    | none =>
      rw [hl] at hk
      exact List.mem_cons_of_mem f (ih hk)
    | some e =>
      rw [hl] at hk
      simp only [List.map_cons, List.mem_cons] at hk
      cases hk with
      | inl h => exact h ▸ List.mem_cons_self f t
      | inr h => exact List.mem_cons_of_mem f (ih h)

/-- C2 amended: every non-reserved key of the mapping a sync pass
persists was referenced (used) during that pass — whether its download
succeeded, was a cache hit, or failed; failed assets are recorded in
the failure ledger and the used set and also appear among the persisted
asset entries (shown by the counterexample theorem). -/
theorem C2_persisted_keys_were_used (oracle : String → Bool) (now : String) (fs : FolderFS)
    (k : String) (hk : k ∈ persistedKeys (syncFolder oracle now fs).2) :
    k ∈ (syncFolder oracle now fs).2.used := by
  unfold syncFolder at hk ⊢
  by_cases hf : (fs.sources.filter fun kv => isMdFile kv.1).isEmpty = true
  · rw [if_pos hf] at hk
    simp [persistedKeys] at hk
  · rw [if_neg hf] at hk ⊢
    by_cases hm : fs.mapFile.isSome = true
    · rw [if_pos hm] at hk
      simp [persistedKeys] at hk
    · rw [if_neg hm] at hk ⊢
      simp only [persistedKeys] at hk
      exact cleanedAssets_key_mem _ _ _ hk

theorem C2_persisted_keys_were_used_witness :
    generateImageFileName "http://h.example/p.png" ∈
      persistedKeys (syncFolder oracleAll "t1" (initFolder exDoc)).2 ∧
    generateImageFileName "http://h.example/p.png" ∈
      (syncFolder oracleAll "t1" (initFolder exDoc)).2.used :=
  ⟨by decide, C2_persisted_keys_were_used oracleAll "t1" (initFolder exDoc)
    (generateImageFileName "http://h.example/p.png") (by decide)⟩

/-! ### C8 amended -/

theorem lookupKey_eraseKey_none {α : Type} (k k2 : String) (l : List (String × α))
    (h : lookupKey k l = none) : lookupKey k (eraseKey k2 l) = none := by
  induction l with
  | nil => rfl
  | cons kv t ih =>
    unfold lookupKey at h
    by_cases hk : kv.1 = k
    · rw [if_pos hk] at h
      exact absurd h (by simp)
    · rw [if_neg hk] at h
      unfold eraseKey
      by_cases hk2 : kv.1 = k2
      · rw [if_pos hk2]
        exact ih h
      · rw [if_neg hk2]
        unfold lookupKey
        rw [if_neg hk]
        exact ih h

theorem lookupKey_eraseKey_self {α : Type} (k : String) (l : List (String × α)) :
    lookupKey k (eraseKey k l) = none := by
  induction l with
  | nil => rfl
  | cons kv t ih =>
    unfold eraseKey
    by_cases hk : kv.1 = k
    · rw [if_pos hk]
      exact ih
    · rw [if_neg hk]
      unfold lookupKey
      rw [if_neg hk]
      exact ih

theorem lookupKey_update_none {α : Type} (k x : String) (f : α → α) (l : List (String × α))
    (h : lookupKey k l = none) :
    lookupKey k (l.map fun kv => if kv.1 = x then (kv.1, f kv.2) else kv) = none := by
  induction l with
  | nil => rfl
  | cons kv t ih =>
    unfold lookupKey at h
    by_cases hk : kv.1 = k
    · rw [if_pos hk] at h
      exact absurd h (by simp)
    · rw [if_neg hk] at h
      simp only [List.map_cons]
      by_cases hx : kv.1 = x
      · rw [if_pos hx]
        unfold lookupKey
        simp only
        rw [if_neg hk]
        exact ih h
      · rw [if_neg hx]
        unfold lookupKey
        rw [if_neg hk]
        exact ih h

theorem mem_addElem_self (n : String) (l : List String) : n ∈ addElem n l := by
  unfold addElem
  by_cases h : l.contains n = true
  · rw [if_pos h]
    exact List.mem_of_elem_eq_true h
  · rw [if_neg h]
    exact List.mem_append_right l (List.mem_singleton.mpr rfl)

theorem mem_addElem_of_mem (n m : String) (l : List String) (h : n ∈ l) : n ∈ addElem m l := by
  unfold addElem
  by_cases hc : l.contains m = true
  · rw [if_pos hc]
    exact h
  · rw [if_neg hc]
    exact List.mem_append_left _ h

theorem fsWriteAt_images_mono (p : String) (fs : FolderFS) (n : String)
    (h : n ∈ fs.images) : n ∈ (fsWriteAt p fs).images := by
  unfold fsWriteAt
  cases hp : parsePath p with
  | some name => exact mem_addElem_of_mem n name fs.images h
  | none =>
    by_cases h1 : p = "mapping.json"
    · rw [if_pos h1]
      exact h
    · rw [if_neg h1]
      by_cases h2 : p = "missing-images.json"
      · rw [if_pos h2]
        exact h
      · rw [if_neg h2]
        by_cases h3 : (lookupKey p fs.outputs).isSome = true
        · rw [if_pos h3]
          exact h
        · rw [if_neg h3]
          exact h

theorem parsePath_image (name : String) : parsePath ("images/" ++ name) = some name := by
  cases name with
  | mk data => rfl

theorem fsWriteAt_image_eq (name : String) (fs : FolderFS) :
    fsWriteAt ("images/" ++ name) fs = { fs with images := addElem name fs.images } := by
  unfold fsWriteAt
  rw [parsePath_image]

theorem ledgerEntries_updateMissing_none (fs : FolderFS) (L : List (String × MissEntry))
    (k : String) (h : lookupKey k L = none) :
    lookupKey k (ledgerEntries (updateMissingImagesFile fs L)) = none := by
  unfold updateMissingImagesFile ledgerEntries
  by_cases hL : L.isEmpty = true
  · rw [if_pos hL]
    rfl
  · rw [if_neg hL]
    exact h

/-- The invariant carried through the retry loop: the asset file is
present and its ledger entry is gone; every later iteration only adds
image files, erases ledger keys, or rewrites errors of existing keys. -/
theorem fixStep_preserves (oracle : String → Bool) (name : String) (st : FixState)
    (it : MissItem) (h1 : name ∈ st.fs.images) (h2 : lookupKey name st.ledger = none) :
    name ∈ (fixStep oracle st it).fs.images ∧
      lookupKey name (fixStep oracle st it).ledger = none := by
  unfold fixStep
  by_cases hok : oracle it.originalUrl = true
  · rw [if_pos hok]
    exact ⟨fsWriteAt_images_mono it.expectedPath st.fs name h1,
      lookupKey_eraseKey_none name it.fileName st.ledger h2⟩
  · rw [if_neg hok]
    exact ⟨h1,
      lookupKey_update_none name it.fileName (fun e => { e with error := dlFailMsg }) st.ledger h2⟩

theorem foldl_fixStep_preserves (oracle : String → Bool) (name : String)
    (l : List MissItem) (st : FixState)
    (h1 : name ∈ st.fs.images) (h2 : lookupKey name st.ledger = none) :
    name ∈ (l.foldl (fixStep oracle) st).fs.images ∧
      lookupKey name (l.foldl (fixStep oracle) st).ledger = none := by
  induction l generalizing st with
  | nil => exact ⟨h1, h2⟩
  | cons it t ih =>
    simp only [List.foldl_cons]
    have hstep := fixStep_preserves oracle name st it h1 h2
    exact ih (fixStep oracle st it) hstep.1 hstep.2

theorem updateMissing_images (fs : FolderFS) (L : List (String × MissEntry)) :
    (updateMissingImagesFile fs L).images = fs.images := by
  unfold updateMissingImagesFile
  by_cases hL : L.isEmpty = true
  · rw [if_pos hL]
  · rw [if_neg hL]

/-- C8 amended: after a recovery pass, every asset whose retry the pass
itself performed successfully is present on disk and absent from the
failure ledger.  The claimed full equivalence fails (see the
counterexample): a mapping-referenced asset that is absent and whose
retry fails stays unlisted, because failure handling only updates
pre-existing ledger entries. -/
theorem C8_recovered_assets_consistent (fs : FolderFS) (oracle : String → Bool) (item : MissItem)
    (hmem : item ∈ (scanForMissingImages fs).1)
    (hok : oracle item.originalUrl = true)
    (hpath : item.expectedPath = "images/" ++ item.fileName) :
    item.fileName ∈ (fixFolder oracle fs).1.images ∧
    lookupKey item.fileName (ledgerEntries (fixFolder oracle fs).1) = none := by
  have hne : (scanForMissingImages fs).1.isEmpty = false := by
    cases hsc : (scanForMissingImages fs).1 with
    | nil =>
      rw [hsc] at hmem
      exact absurd hmem (List.not_mem_nil item)
    | cons a t => rfl
  obtain ⟨l1, l2, hsplit⟩ := List.append_of_mem hmem
  simp only [fixFolder, hne, Bool.false_and, Bool.false_eq_true, if_false]
  rw [hsplit, List.foldl_append, List.foldl_cons]
  set st1 := l1.foldl (fixStep oracle) ⟨fs, ledgerEntries fs, 0, 0⟩ with hst1
  have hstep1 : item.fileName ∈ (fixStep oracle st1 item).fs.images := by
    unfold fixStep
    rw [if_pos hok, hpath, fsWriteAt_image_eq]
    exact mem_addElem_self item.fileName st1.fs.images
  have hstep2 : lookupKey item.fileName (fixStep oracle st1 item).ledger = none := by
    unfold fixStep
    rw [if_pos hok]
    exact lookupKey_eraseKey_self item.fileName st1.ledger
  have hfin := foldl_fixStep_preserves oracle item.fileName l2 (fixStep oracle st1 item) hstep1 hstep2
  constructor
  · rw [updateMissing_images]
    exact hfin.1
  · exact ledgerEntries_updateMissing_none _ _ _ hfin.2

theorem C8_recovered_assets_consistent_witness :
    (⟨"x.png", "http://h.example/x.png", "images/x.png", "文件不存在", "未知"⟩ : MissItem) ∈
        (scanForMissingImages c8fs).1 ∧
    "x.png" ∈ (fixFolder oracleAll c8fs).1.images ∧
    lookupKey "x.png" (ledgerEntries (fixFolder oracleAll c8fs).1) = none := by
  refine ⟨by decide, ?_⟩
  exact C8_recovered_assets_consistent c8fs oracleAll
    ⟨"x.png", "http://h.example/x.png", "images/x.png", "文件不存在", "未知"⟩
    (by decide) (by decide) (by decide)

/-! ### C9 -/

theorem pathIsImage_imagesDir (name : String) : pathIsImage ("images/" ++ name) = true := by
  unfold pathIsImage
  rw [parsePath_image]
  rfl

/-- Property preservation along a foldl whose step may consult the
accumulator. -/
theorem foldl_all_pres {β γ : Type} (step : List γ → β → List γ) (Q : γ → Prop) (l : List β)
    (hstep : ∀ acc kv, kv ∈ l → (∀ x, x ∈ acc → Q x) → ∀ x, x ∈ step acc kv → Q x)
    (acc : List γ) (hacc : ∀ x, x ∈ acc → Q x) :
    ∀ x, x ∈ l.foldl step acc → Q x := by
  induction l generalizing acc with
  | nil => exact hacc
  | cons kv t ih =>
    simp only [List.foldl_cons]
    exact ih (fun a k2 h2 => hstep a k2 (List.mem_cons_of_mem _ h2)) _
      (hstep acc kv (List.mem_cons_self _ _) hacc)

theorem scanLedgerMissing_paths (fs : FolderFS) (hwf : ledgerPathsWF fs = true) :
    ∀ item, item ∈ scanLedgerMissing fs → pathIsImage item.expectedPath = true := by
  unfold ledgerPathsWF at hwf
  unfold scanLedgerMissing
  cases hmf : fs.missFile with
  | none => intro item h; exact absurd h (List.not_mem_nil item)
  | some om =>
    cases om with
    | none => intro item h; exact absurd h (List.not_mem_nil item)
    | some entries =>
      have hentries : ledgerEntries fs = entries := by
        unfold ledgerEntries
        rw [hmf]
      rw [hentries] at hwf
      refine foldl_all_pres _ _ entries ?_ [] (fun x hx => absurd hx (List.not_mem_nil x))
      intro acc kv hkv hacc x hx
      by_cases hc : fs.images.contains kv.1 = true
      · rw [if_pos hc] at hx
        exact hacc x hx
      · rw [if_neg hc] at hx
        rcases List.mem_append.mp hx with h1 | h2
        · exact hacc x h1
        · rw [List.mem_singleton.mp h2]
          simp only
          by_cases hlf : kv.2.localFilePath = ""
          · rw [if_pos hlf]
            exact pathIsImage_imagesDir kv.1
          · rw [if_neg hlf]
            have := List.all_eq_true.mp hwf kv hkv
            rw [if_neg hlf] at this
            exact this

theorem scanMissing_paths (fs : FolderFS) (hwf : ledgerPathsWF fs = true) :
    ∀ item, item ∈ (scanForMissingImages fs).1 → pathIsImage item.expectedPath = true := by
  unfold scanForMissingImages scanMappingMissing
  cases hmf : fs.mapFile with
  | none => exact scanLedgerMissing_paths fs hwf
  | some om =>
    cases om with
    | none => exact scanLedgerMissing_paths fs hwf
    | some mapping =>
      refine foldl_all_pres _ _ mapping.assets ?_ _ (scanLedgerMissing_paths fs hwf)
      intro acc kv hkv hacc x hx
      by_cases h1 : isMetaKey kv.1 = true
      · rw [if_pos h1] at hx
        exact hacc x hx
      · rw [if_neg h1] at hx
        by_cases h2 : fs.images.contains kv.1 = true
        · rw [if_pos h2] at hx
          exact hacc x hx
        · rw [if_neg h2] at hx
          by_cases h3 : (acc.any fun it => it.fileName = kv.1) = true
          · rw [if_pos h3] at hx
            exact hacc x hx
          · rw [if_neg h3] at hx
            rcases List.mem_append.mp hx with h4 | h5
            · exact hacc x h4
            · rw [List.mem_singleton.mp h5]
              exact pathIsImage_imagesDir kv.1

theorem fsWriteAt_frame (p : String) (fs : FolderFS) (h : pathIsImage p = true) :
    (fsWriteAt p fs).mapFile = fs.mapFile ∧ (fsWriteAt p fs).outputs = fs.outputs ∧
    (fsWriteAt p fs).sources = fs.sources := by
  unfold pathIsImage at h
  unfold fsWriteAt
  cases hp : parsePath p with
  | some name => exact ⟨rfl, rfl, rfl⟩
  | none =>
    rw [hp] at h
    exact absurd h (by simp)

theorem fixStep_frame (oracle : String → Bool) (st : FixState) (it : MissItem)
    (hp : pathIsImage it.expectedPath = true) :
    (fixStep oracle st it).fs.mapFile = st.fs.mapFile ∧
    (fixStep oracle st it).fs.outputs = st.fs.outputs ∧
    (fixStep oracle st it).fs.sources = st.fs.sources := by
  unfold fixStep
  by_cases hok : oracle it.originalUrl = true
  · rw [if_pos hok]
    exact fsWriteAt_frame it.expectedPath st.fs hp
  · rw [if_neg hok]
    exact ⟨rfl, rfl, rfl⟩

theorem foldl_fixStep_frame (oracle : String → Bool) (l : List MissItem) (st : FixState)
    (hl : ∀ it, it ∈ l → pathIsImage it.expectedPath = true) :
    (l.foldl (fixStep oracle) st).fs.mapFile = st.fs.mapFile ∧
    (l.foldl (fixStep oracle) st).fs.outputs = st.fs.outputs ∧
    (l.foldl (fixStep oracle) st).fs.sources = st.fs.sources := by
  induction l generalizing st with
  | nil => exact ⟨rfl, rfl, rfl⟩
  | cons it t ih =>
    simp only [List.foldl_cons]
    have hstep := fixStep_frame oracle st it (hl it (List.mem_cons_self _ _))
    have hrest := ih (fixStep oracle st it) (fun x hx => hl x (List.mem_cons_of_mem _ hx))
    exact ⟨hrest.1.trans hstep.1, hrest.2.1.trans hstep.2.1, hrest.2.2.trans hstep.2.2⟩

theorem updateMissing_frame (fs : FolderFS) (L : List (String × MissEntry)) :
    (updateMissingImagesFile fs L).mapFile = fs.mapFile ∧
    (updateMissingImagesFile fs L).outputs = fs.outputs ∧
    (updateMissingImagesFile fs L).sources = fs.sources := by
  unfold updateMissingImagesFile
  by_cases hL : L.isEmpty = true
  · rw [if_pos hL]
    exact ⟨rfl, rfl, rfl⟩
  · rw [if_neg hL]
    exact ⟨rfl, rfl, rfl⟩

/-- C9: a recovery pass whose ledger records well-formed download
targets (every localFilePath empty or inside the images directory, as
the pipeline always writes them) never writes the mapping file, the
rewritten documents, or the input documents; its writes are confined to
the images directory and the failure ledger. -/
theorem C9_recovery_frame (fs : FolderFS) (oracle : String → Bool)
    (hwf : ledgerPathsWF fs = true) :
    (fixFolder oracle fs).1.mapFile = fs.mapFile ∧
    (fixFolder oracle fs).1.outputs = fs.outputs ∧
    (fixFolder oracle fs).1.sources = fs.sources := by
  unfold fixFolder
  by_cases hc : ((scanForMissingImages fs).1.isEmpty && (scanForMissingImages fs).2.isEmpty) = true
  · rw [if_pos hc]
    exact ⟨rfl, rfl, rfl⟩
  · rw [if_neg hc]
    have hpaths := scanMissing_paths fs hwf
    have hfold := foldl_fixStep_frame oracle (scanForMissingImages fs).1
      ⟨fs, ledgerEntries fs, 0, 0⟩ hpaths
    have hupd := updateMissing_frame
      ((scanForMissingImages fs).1.foldl (fixStep oracle) ⟨fs, ledgerEntries fs, 0, 0⟩).fs
      ((scanForMissingImages fs).1.foldl (fixStep oracle) ⟨fs, ledgerEntries fs, 0, 0⟩).ledger
    exact ⟨hupd.1.trans hfold.1, hupd.2.1.trans hfold.2.1, hupd.2.2.trans hfold.2.2⟩

theorem C9_recovery_frame_witness :
    ledgerPathsWF c8fs = true ∧
    (fixFolder oracleNone c8fs).1.mapFile = c8fs.mapFile ∧
    (fixFolder oracleNone c8fs).1.outputs = c8fs.outputs ∧
    (fixFolder oracleNone c8fs).1.sources = c8fs.sources := by
  refine ⟨by decide, ?_⟩
  exact C9_recovery_frame c8fs oracleNone (by decide)

/-! ### C5: second run of an unchanged, fully downloaded document -/

theorem mem_addElem_cases (n m : String) (l : List String) (h : n ∈ addElem m l) :
    n = m ∨ n ∈ l := by
  unfold addElem at h
  by_cases hc : l.contains m = true
  · rw [if_pos hc] at h
    exact Or.inr h
  · rw [if_neg hc] at h
    rcases List.mem_append.mp h with h1 | h2
    · exact Or.inr h1
    · exact Or.inl (List.mem_singleton.mp h2)

theorem lookupKey_upsert_self {α : Type} (k : String) (v : α) (l : List (String × α)) :
    lookupKey k (upsert k v l) = some v := by
  induction l with
  | nil =>
    unfold upsert lookupKey
    rw [if_pos rfl]
  | cons kv t ih =>
    unfold upsert
    by_cases hk : kv.1 = k
    · rw [if_pos hk]
      unfold lookupKey
      rw [if_pos rfl]
    · rw [if_neg hk]
      unfold lookupKey
      rw [if_neg hk]
      exact ih

theorem downloadImage_hit (oracle : String → Bool) (images : List String) (url name : String)
    (hc : images.contains name = true) :
    downloadImage oracle images url name = ⟨true, images, []⟩ := by
  unfold downloadImage
  rw [if_pos hc]

theorem downloadImage_ok (oracle : String → Bool) (images : List String) (url name : String)
    (hc : ¬ images.contains name = true) (ho : oracle url = true) :
    downloadImage oracle images url name = ⟨true, addElem name images, [url]⟩ := by
  unfold downloadImage
  rw [if_neg hc, if_pos ho]

theorem downloadImage_fail (oracle : String → Bool) (images : List String) (url name : String)
    (hc : ¬ images.contains name = true) (ho : ¬ oracle url = true) :
    downloadImage oracle images url name = ⟨false, images, List.replicate retryCountDefault url⟩ := by
  unfold downloadImage
  rw [if_neg hc, if_neg ho]

theorem processRef_step (oracle : String → Bool) (fileName : String) (st : LoopState) (r : ImgRef) :
    (∀ n, n ∈ st.images → n ∈ (processRef oracle fileName st r).images) ∧
    (∀ n, n ∈ st.used → n ∈ (processRef oracle fileName st r).used) ∧
    (generateImageFileName r.url ∈ (processRef oracle fileName st r).used) ∧
    (oracle r.url = true →
      (processRef oracle fileName st r).missing = st.missing ∧
      generateImageFileName r.url ∈ (processRef oracle fileName st r).images) ∧
    ((∀ n, n ∈ st.images → n ∈ st.used) →
      ∀ n, n ∈ (processRef oracle fileName st r).images →
        n ∈ (processRef oracle fileName st r).used) ∧
    ((processRef oracle fileName st r).events = st.events ∨
      oracle r.url = false ∨
      (processRef oracle fileName st r).events = st.events ++ [r.url]) := by
  unfold processRef
  by_cases hc : st.images.contains (generateImageFileName r.url) = true
  · simp only [hc, if_true]
    refine ⟨fun n h => h, fun n h => mem_addElem_of_mem n _ st.used h,
      mem_addElem_self _ st.used, fun _ => ⟨trivial, List.mem_of_elem_eq_true hc⟩, ?_,
      Or.inl trivial⟩
    intro hsub n hn
    exact mem_addElem_of_mem n _ st.used (hsub n hn)
  · simp only [hc, Bool.false_eq_true, if_false]
    by_cases ho : oracle r.url = true
    · rw [downloadImage_ok oracle st.images r.url (generateImageFileName r.url) hc ho]
      simp only [if_true]
      refine ⟨fun n h => mem_addElem_of_mem n _ st.images h,
        fun n h => mem_addElem_of_mem n _ st.used h,
        mem_addElem_self _ st.used,
        fun _ => ⟨trivial, mem_addElem_self _ st.images⟩, ?_, Or.inr (Or.inr trivial)⟩
      intro hsub n hn
      rcases mem_addElem_cases n _ st.images hn with h1 | h2
      · rw [h1]
        exact mem_addElem_self _ st.used
      · exact mem_addElem_of_mem n _ st.used (hsub n h2)
    · rw [downloadImage_fail oracle st.images r.url (generateImageFileName r.url) hc ho]
      simp only [Bool.false_eq_true, if_false]
      refine ⟨fun n h => h, fun n h => mem_addElem_of_mem n _ st.used h,
        mem_addElem_self _ st.used,
        fun hor => absurd hor ho, ?_,
        Or.inr (Or.inl (Bool.eq_false_iff.mpr ho))⟩
      intro hsub n hn
      exact mem_addElem_of_mem n _ st.used (hsub n hn)

theorem runRefs_cons (oracle : String → Bool) (fileName : String) (st : LoopState)
    (r : ImgRef) (rs : List ImgRef) :
    runRefs oracle fileName st (r :: rs) =
      runRefs oracle fileName (processRef oracle fileName st r) rs := rfl

theorem runRefs_facts (oracle : String → Bool) (fileName : String) (refs : List ImgRef)
    (st : LoopState) :
    (∀ n, n ∈ st.images → n ∈ (runRefs oracle fileName st refs).images) ∧
    (∀ n, n ∈ st.used → n ∈ (runRefs oracle fileName st refs).used) ∧
    (∀ r, r ∈ refs → generateImageFileName r.url ∈ (runRefs oracle fileName st refs).used) ∧
    (refs.all (fun r => oracle r.url) = true →
      (runRefs oracle fileName st refs).missing = st.missing ∧
      ∀ r, r ∈ refs → generateImageFileName r.url ∈ (runRefs oracle fileName st refs).images) ∧
    ((∀ n, n ∈ st.images → n ∈ st.used) →
      ∀ n, n ∈ (runRefs oracle fileName st refs).images →
        n ∈ (runRefs oracle fileName st refs).used) := by
  induction refs generalizing st with
  | nil =>
    exact ⟨fun n h => h, fun n h => h, fun r hr => absurd hr (List.not_mem_nil r),
      fun _ => ⟨rfl, fun r hr => absurd hr (List.not_mem_nil r)⟩, fun h => h⟩
  | cons r rs ih =>
    obtain ⟨s1, s2, s3, s4, s5, _⟩ := processRef_step oracle fileName st r
    obtain ⟨i1, i2, i3, i4, i5⟩ := ih (processRef oracle fileName st r)
    rw [runRefs_cons]
    refine ⟨fun n h => i1 n (s1 n h), fun n h => i2 n (s2 n h), ?_, ?_, ?_⟩
    · intro q hq
      rcases List.mem_cons.mp hq with h1 | h2
      · rw [h1]
        exact i2 _ s3
      · exact i3 q h2
    · intro hall
      simp only [List.all_cons, Bool.and_eq_true] at hall
      obtain ⟨hr, hrs⟩ := hall
      obtain ⟨sm, si⟩ := s4 hr
      obtain ⟨im, ii⟩ := i4 hrs
      refine ⟨im.trans sm, ?_⟩
      intro q hq
      rcases List.mem_cons.mp hq with h1 | h2
      · rw [h1]
        exact i1 _ si
      · exact ii q h2
    · intro hsub
      exact i5 (s5 hsub)

theorem isFileProcessed_false_of_no_output (fs : FolderFS) (fileName content : String)
    (h : hasOutput fs fileName = false) : isFileProcessed fs fileName content = false := by
  unfold isFileProcessed
  rw [h]
  rfl

theorem processMarkdownFile_first_empty (oracle : String → Bool) (now content : String)
    (hie : extractImageUrls content = []) :
    processMarkdownFile oracle now "a.md" content ⟨initFolder content, ⟨none, []⟩, [], [], []⟩ =
      (⟨⟨[("a.md", content)], [("a.md", content)], [],
         some (some ⟨some ⟨some (calculateFileHash content), some now⟩, []⟩), none⟩,
        ⟨some ⟨some (calculateFileHash content), some now⟩, []⟩, [], [], []⟩,
       ⟨true, false, 0, 0, 0⟩) := by
  unfold processMarkdownFile
  rw [isFileProcessed_false_of_no_output (initFolder content) "a.md" content rfl]
  simp only [Bool.false_eq_true, if_false, hie, List.isEmpty_nil, if_true]
  rfl

theorem processMarkdownFile_first_nonempty (oracle : String → Bool) (now content : String)
    (hne : (extractImageUrls content).isEmpty = false) :
    processMarkdownFile oracle now "a.md" content ⟨initFolder content, ⟨none, []⟩, [], [], []⟩ =
      (⟨⟨[("a.md", content)],
         [("a.md", rewriteContent
             (runRefs oracle "a.md" ⟨[], ⟨none, []⟩, [], [], [], [], 0⟩
               (extractImageUrls content)).results
             (extractImageUrls content) content)],
         (runRefs oracle "a.md" ⟨[], ⟨none, []⟩, [], [], [], [], 0⟩
           (extractImageUrls content)).images,
         none, none⟩,
        ⟨some ⟨some (calculateFileHash content), some now⟩,
         (runRefs oracle "a.md" ⟨[], ⟨none, []⟩, [], [], [], [], 0⟩
           (extractImageUrls content)).mapping.assets⟩,
        (runRefs oracle "a.md" ⟨[], ⟨none, []⟩, [], [], [], [], 0⟩
          (extractImageUrls content)).missing,
        (runRefs oracle "a.md" ⟨[], ⟨none, []⟩, [], [], [], [], 0⟩
          (extractImageUrls content)).used,
        (runRefs oracle "a.md" ⟨[], ⟨none, []⟩, [], [], [], [], 0⟩
          (extractImageUrls content)).events⟩,
       ⟨true, false, (extractImageUrls content).length,
        (runRefs oracle "a.md" ⟨[], ⟨none, []⟩, [], [], [], [], 0⟩
          (extractImageUrls content)).downloadedCount,
        (extractImageUrls content).length -
          (runRefs oracle "a.md" ⟨[], ⟨none, []⟩, [], [], [], [], 0⟩
            (extractImageUrls content)).downloadedCount⟩) := by
  unfold processMarkdownFile
  rw [isFileProcessed_false_of_no_output (initFolder content) "a.md" content rfl]
  simp only [Bool.false_eq_true, if_false, hne]
  rfl

theorem syncFolder_single_eq (oracle : String → Bool) (now content : String) :
    syncFolder oracle now (initFolder content) =
      (let pr := processMarkdownFile oracle now "a.md" content
          ⟨initFolder content, ⟨none, []⟩, [], [], []⟩
       ({ pr.1.fs with
           images := pr.1.fs.images.filter fun f => pr.1.used.contains f
           mapFile := some (some ⟨pr.1.mapping.metadata,
             cleanedAssets pr.1.used pr.1.mapping.assets⟩)
           missFile := if pr.1.missing.isEmpty then none else some (some pr.1.missing) },
        ⟨0 + (if pr.2.processed then 1 else 0),
         0 + (if pr.2.processed && pr.2.skipped then 1 else 0),
         0 + (if pr.2.processed then pr.2.imagesCount else 0),
         0 + (if pr.2.processed then pr.2.downloadedCount else 0),
         0 + (if pr.2.processed then pr.2.failedCount else 0),
         pr.1.used, pr.1.events,
         some ⟨pr.1.mapping.metadata, cleanedAssets pr.1.used pr.1.mapping.assets⟩, false⟩)) := rfl

theorem syncFolder_first_facts (oracle : String → Bool) (now content : String)
    (h : (extractImageUrls content).all (fun r => oracle r.url) = true) :
    (syncFolder oracle now (initFolder content)).1.sources = [("a.md", content)] ∧
    isFileProcessed (syncFolder oracle now (initFolder content)).1 "a.md" content = true := by
  cases hie : (extractImageUrls content).isEmpty with
  | true =>
    have hnil : extractImageUrls content = [] := List.isEmpty_iff.mp hie
    have hfs : (syncFolder oracle now (initFolder content)).1 =
        ⟨[("a.md", content)], [("a.md", content)], [],
         some (some ⟨some ⟨some (calculateFileHash content), some now⟩, []⟩), none⟩ := by
      rw [syncFolder_single_eq, processMarkdownFile_first_empty oracle now content hnil]
      rfl
    rw [hfs, isFileProcessed_characterization]
    refine ⟨rfl, rfl, rfl, ?_, ?_⟩
    · by_cases hH : calculateFileHash content = ""
      · refine Or.inl ?_
        show (if calculateFileHash content = "" then (none : Option String)
          else some (calculateFileHash content)) = none
        rw [if_pos hH]
      · refine Or.inr ?_
        show (if calculateFileHash content = "" then (none : Option String)
          else some (calculateFileHash content)) = some (calculateFileHash content)
        rw [if_neg hH]
    · rw [hnil]
      rfl
  | false =>
    obtain ⟨r1, r2, r3, r4, r5⟩ := runRefs_facts oracle "a.md" (extractImageUrls content)
      ⟨[], ⟨none, []⟩, [], [], [], [], 0⟩
    obtain ⟨rmiss, rimg⟩ := r4 h
    have hfs : (syncFolder oracle now (initFolder content)).1 =
        ⟨[("a.md", content)],
         [("a.md", rewriteContent
             (runRefs oracle "a.md" ⟨[], ⟨none, []⟩, [], [], [], [], 0⟩
               (extractImageUrls content)).results (extractImageUrls content) content)],
         (runRefs oracle "a.md" ⟨[], ⟨none, []⟩, [], [], [], [], 0⟩
           (extractImageUrls content)).images.filter
           (fun f => (runRefs oracle "a.md" ⟨[], ⟨none, []⟩, [], [], [], [], 0⟩
             (extractImageUrls content)).used.contains f),
         some (some ⟨some ⟨some (calculateFileHash content), some now⟩,
           cleanedAssets
             (runRefs oracle "a.md" ⟨[], ⟨none, []⟩, [], [], [], [], 0⟩
               (extractImageUrls content)).used
             (runRefs oracle "a.md" ⟨[], ⟨none, []⟩, [], [], [], [], 0⟩
               (extractImageUrls content)).mapping.assets⟩),
         if (runRefs oracle "a.md" ⟨[], ⟨none, []⟩, [], [], [], [], 0⟩
             (extractImageUrls content)).missing.isEmpty then none
         else some (some (runRefs oracle "a.md" ⟨[], ⟨none, []⟩, [], [], [], [], 0⟩
           (extractImageUrls content)).missing)⟩ := by
      rw [syncFolder_single_eq, processMarkdownFile_first_nonempty oracle now content hie]
    rw [hfs, isFileProcessed_characterization]
    refine ⟨rfl, rfl, rfl, ?_, ?_⟩
    · by_cases hH : calculateFileHash content = ""
      · refine Or.inl ?_
        show (if calculateFileHash content = "" then (none : Option String)
          else some (calculateFileHash content)) = none
        rw [if_pos hH]
      · refine Or.inr ?_
        show (if calculateFileHash content = "" then (none : Option String)
          else some (calculateFileHash content)) = some (calculateFileHash content)
        rw [if_neg hH]
    · rw [List.all_eq_true]
      intro r hr
      exact List.elem_eq_true_of_mem
        (List.mem_filter.mpr ⟨rimg r hr, List.elem_eq_true_of_mem (r3 r hr)⟩)

theorem processMarkdownFile_skip (oracle : String → Bool) (now fileName content : String)
    (ps : PassState) (hskip : isFileProcessed ps.fs fileName content = true) :
    processMarkdownFile oracle now fileName content ps =
      ({ ps with used := ((extractImageUrls content).map fun r =>
           generateImageFileName r.url).foldl (fun u n => addElem n u) ps.used },
       ⟨true, true, diskNonMetaCount ps.fs, 0, 0⟩) := by
  unfold processMarkdownFile
  rw [hskip]
  rfl

/-- C5: the claim says a second run over an unchanged collection issues
no network request, downloads nothing, skips every document, and leaves
the output bytes identical.  After the first run mapping.json exists,
so the second run aborts at line 388 (the TypeError on the bare log
call) before any document is examined and main exits with code 1: the
document that the skip logic would have accepted (isFileProcessed is
true for it) is never skipped — skippedCount stays 0 — and the outputs
survive only because the aborted pass touches nothing.  The promised
skip behaviour is unreachable on every rerun. -/
theorem C5_second_run_aborts :
    isFileProcessed twoRunFS1 "a.md" exDoc = true ∧
    (syncFolder oracleAll "t2" twoRunFS1).2.aborted = true ∧
    (syncFolder oracleAll "t2" twoRunFS1).2.skippedCount = 0 ∧
    (syncFolder oracleAll "t2" twoRunFS1).2.totalDownloaded = 0 ∧
    (syncFolder oracleAll "t2" twoRunFS1).2.events = [] ∧
    (syncFolder oracleAll "t2" twoRunFS1).1.outputs = twoRunFS1.outputs := by
  decide
